import Mathlib

/-!
Shallow embedding of `src/tags/1.4/utilities/parallelretriever.py`.

The program copies the manifest and retrieval-order files into a fresh
package directory, distributes the lines of the retrieval order
round-robin over `num_processes` buckets, forks one worker per bucket,
and each worker sequentially fetches its items with rsync or wget
(chosen by URL prefix), appending one line per attempt to a single
`retrieval.log` file opened by the parent before forking.

External effects (process spawning, `os.makedirs`) are modelled by
oracle functions passed as parameters; the file system reads are
modelled by passing the retrieval-order file as a list of lines.
-/

/-- Python whitespace characters, as recognised by `str.split()` and
`str.strip()` with no argument. -/
def pyIsSpace (c : Char) : Bool :=
  c = ' ' || c = '\t' || c = '\n' || c = '\r' || c = '\x0b' || c = '\x0c'

/-- Helper for `pySplit`: collects maximal runs of non-whitespace characters
(`acc` is the current run, reversed). -/
def splitWordsAux : List Char → List Char → List (List Char)
  | [], acc => if acc.isEmpty then [] else [acc.reverse]
  | c :: cs, acc =>
    if pyIsSpace c then
      if acc.isEmpty then splitWordsAux cs [] else acc.reverse :: splitWordsAux cs []
    else splitWordsAux cs (c :: acc)

/-- Python `s.split()` with no separator: split on runs of whitespace,
producing no empty tokens. -/
def pySplit (s : String) : List String :=
  (splitWordsAux s.data []).map String.mk

/-- Python `s.strip()`: remove leading and trailing whitespace. -/
def pyStrip (s : String) : String :=
  String.mk (((s.data.dropWhile pyIsSpace).reverse.dropWhile pyIsSpace).reverse)

/-- Python `s.startswith(pre)`. -/
def pyStartsWith (s pre : String) : Bool :=
  pre.data.isPrefixOf s.data

/-- Python `s.endswith(suf)`. -/
def pyEndsWith (s suf : String) : Bool :=
  suf.data.isSuffixOf s.data

/-- Posix `os.path.join(a, b)` (two arguments): an absolute second
component discards the first. -/
def pyJoin (a b : String) : String :=
  if pyStartsWith b "/" then b
  else if a = "" || pyEndsWith a "/" then a ++ b
  else a ++ "/" ++ b

/-- Posix `os.path.dirname(p)`: everything up to the last slash,
with trailing slashes stripped unless the head is all slashes. -/
def dirname (p : String) : String :=
  let head := ((p.data.reverse.dropWhile (fun c => c ≠ '/')).reverse)
  if head.isEmpty || head.all (fun c => c = '/') then String.mk head
  else String.mk ((head.reverse.dropWhile (fun c => c = '/')).reverse)

/-- A parsed retrieval-order line: `tuple(line.strip().split())`
(line 44 of the source). -/
abbrev RetrievalItem := List String

/-- The item built from one line of the retrieval-order file. -/
def lineItem (line : String) : RetrievalItem :=
  pySplit (pyStrip line)

/-- Line 46, `retrieval_orders[i].append(x)`: append `x` to bucket `i`,
leaving the other buckets unchanged. -/
def appendAt (B : List (List α)) (i : Nat) (x : α) : List (List α) :=
  B.set i (B.getD i [] ++ [x])

/-- The distribution loop of lines 42-47: each successive element goes
to bucket `counter % n`.  (With `n = 0` the Python code would raise
`ZeroDivisionError`; all claims assume at least one worker.) -/
def distributeLoop : List α → Nat → Nat → List (List α) → List (List α)
  | [], _, _, B => B
  | x :: xs, n, counter, B => distributeLoop xs n (counter + 1) (appendAt B (counter % n) x)

/-- Round-robin partition of a list into `n` buckets, starting from `n`
empty buckets and counter `0`, exactly as lines 41-47 of the source. -/
def partitionRR (items : List α) (n : Nat) : List (List α) :=
  distributeLoop items n 0 (List.replicate n [])

/-- The bucket lists built by `retrieve_package` from the retrieval-order
file's lines (lines 41-47). -/
def retrievalOrders (orderLines : List String) (n : Nat) : List (List RetrievalItem) :=
  partitionRR (orderLines.map lineItem) n

/-- Cons-based round-robin assignment with explicit counter; helper used
to reason about `distributeLoop`. -/
def consAt (B : List (List α)) (i : Nat) (x : α) : List (List α) :=
  B.set i (x :: B.getD i [])

/-- Functional form of the distribution loop: `rrC n c xs` holds, for each
bucket `j`, the elements of `xs` whose (counter-offset) index is `≡ j [MOD n]`. -/
def rrC (n : Nat) : Nat → List α → List (List α)
  | _, [] => List.replicate n []
  | c, x :: xs => consAt (rrC n (c + 1) xs) (c % n) x

/-- Position-tagged elements of a list, indices starting at `c` (used to
state which items land in which bucket). -/
def idxFrom : Nat → List α → List (Nat × α)
  | _, [] => []
  | c, x :: xs => (c, x) :: idxFrom (c + 1) xs

/-- Cons a list of heads onto the fronts of the first buckets (used to
peel one round-robin pass off a bucket list). -/
def consHeads : List α → List (List α) → List (List α)
  | [], B => B
  | _ :: _, [] => []
  | x :: xs, b :: B => (x :: b) :: consHeads xs B

/-- Total number of elements over all buckets. -/
def sumLen (B : List (List α)) : Nat :=
  (B.map List.length).sum

/-- One pass of round-robin interleaving: take the head of every
non-empty bucket in bucket order, then continue on the tails.  `fuel`
bounds the number of passes (the total element count suffices). -/
def rrInterleaveGo : Nat → List (List α) → List α
  | 0, _ => []
  | fuel + 1, B =>
    if B.all List.isEmpty then []
    else B.filterMap List.head? ++ rrInterleaveGo fuel (B.map List.tail)

/-- Round-robin interleave of a bucket list: repeatedly emit the heads of
all non-empty buckets in bucket order. -/
def rrInterleave (B : List (List α)) : List α :=
  rrInterleaveGo (sumLen B) B

/-- The external transfer command a worker spawns for one item
(lines 70-75): `rsync -ar url filename` or `wget -q -O filename url`. -/
inductive TransferCmd where
  | rsyncMirror (url filename : String)
  | wgetFetch (filename url : String)
deriving DecidableEq, Repr

/-- Lines 70-75: a URL starting with the characters `rsync` is mirrored
with rsync; everything else is fetched with wget. -/
def selectTransfer (url filename : String) : TransferCmd :=
  if pyStartsWith url "rsync" then .rsyncMirror url filename
  else .wgetFetch filename url

/-- Modelled from the spec's words ("any URL whose scheme token matches
the rsync scheme"): the scheme token of a URL, i.e. the text before the
first colon. -/
def schemeToken (url : String) : String :=
  String.mk (url.data.takeWhile (fun c => c ≠ ':'))

/-- An `OSError` raised by `os.makedirs`, carrying its errno
(17 = EEXIST "already exists", 13 = EACCES, ...). -/
structure OSErr where
  errno : Nat
deriving DecidableEq, Repr

/-- An uncaught Python exception terminating a worker.  The only one the
worker body can raise is the `ValueError` from unpacking a token tuple
whose length is not the expected 2 or 3 (lines 60-63). -/
inductive PyExc where
  | valueError
deriving DecidableEq, Repr

/-- Lines 65-69: `try: os.makedirs(...) except OSError: pass` — every
`OSError` outcome of the directory creation is swallowed. -/
def tryExceptOSPass (act : Except OSErr Unit) : Except PyExc Unit :=
  match act with
  | .ok _ => .ok ()
  | .error _ => .ok ()

/-- The log line of line 76: `"%s %s %d\n" % (time.asctime(), filename, ret)`. -/
def mkLogLine (ts filename : String) (ret : Int) : String :=
  ts ++ " " ++ filename ++ " " ++ toString ret ++ "\n"

/-- What one loop iteration of the worker (lines 58-76) produces for a
well-formed item: the spawned command, its exit code, and the log line. -/
structure ItemResult where
  cmd : TransferCmd
  ret : Int
  logLine : String
deriving DecidableEq, Repr

/-- The shared tail of the worker loop body once `url` and the raw
filename are unpacked: join the filename onto the package directory,
best-effort create its directory, spawn the transfer, record the result.
`run` is the oracle giving each spawned process's exit code; `mkdirs`
is the oracle giving the outcome of `os.makedirs`. -/
def processFetch (package_directory : String) (run : TransferCmd → Int)
    (mkdirs : String → Except OSErr Unit) (ts : String)
    (url filename0 : String) : Except PyExc ItemResult :=
  let filename := pyJoin package_directory filename0
  match tryExceptOSPass (mkdirs (dirname filename)) with
  | .error e => .error e
  | .ok _ =>
    let cmd := selectTransfer url filename
    let ret := run cmd
    .ok { cmd := cmd, ret := ret, logLine := mkLogLine ts filename ret }

/-- One worker loop iteration (lines 58-76).  A token tuple of length 2
unpacks as `url, filename`; otherwise the code unpacks three names, so
any length other than 3 raises `ValueError`. -/
def processItem (package_directory : String) (run : TransferCmd → Int)
    (mkdirs : String → Except OSErr Unit) (ts : String)
    (item : RetrievalItem) : Except PyExc ItemResult :=
  match item with
  | [url, filename0] => processFetch package_directory run mkdirs ts url filename0
  | [url, _filesize, filename0] => processFetch package_directory run mkdirs ts url filename0
  | _ => .error .valueError

/-- Everything observable about one forked worker: the log lines it wrote,
the transfers it spawned (in order), and whether it reached `sys.exit(0)`
or died on an uncaught exception. -/
structure WorkerOutput where
  log : List String
  attempts : List TransferCmd
  outcome : Except PyExc Unit
deriving Repr

/-- The worker loop over its bucket (lines 58-77), with `idx` numbering
the iterations so the timestamp oracle `ts` can vary per item.  An
uncaught exception stops the loop; otherwise the worker ends in
`sys.exit(0)`. -/
def workerSteps (package_directory : String) (run : TransferCmd → Int)
    (mkdirs : String → Except OSErr Unit) (ts : Nat → String) :
    Nat → List RetrievalItem → WorkerOutput
  | _, [] => { log := [], attempts := [], outcome := .ok () }
  | idx, item :: rest =>
    match processItem package_directory run mkdirs (ts idx) item with
    | .error e => { log := [], attempts := [], outcome := .error e }
    | .ok r =>
      let tail := workerSteps package_directory run mkdirs ts (idx + 1) rest
      { log := r.logLine :: tail.log, attempts := r.cmd :: tail.attempts,
        outcome := tail.outcome }

/-- A forked worker run on one bucket. -/
def workerRun (package_directory : String) (run : TransferCmd → Int)
    (mkdirs : String → Except OSErr Unit) (ts : Nat → String)
    (bucket : List RetrievalItem) : WorkerOutput :=
  workerSteps package_directory run mkdirs ts 0 bucket

/-- The process exit status of a worker: 0 from `sys.exit(0)`, 1 when the
interpreter dies on an uncaught exception. -/
def workerExitStatus (w : WorkerOutput) : Nat :=
  match w.outcome with
  | .ok _ => 0
  | .error _ => 1

/-- The transfer command a well-formed item gives rise to (used to state
that a worker attempts its items in order). -/
def itemCmd (package_directory : String) : RetrievalItem → Option TransferCmd
  | [url, filename0] => some (selectTransfer url (pyJoin package_directory filename0))
  | [url, _filesize, filename0] => some (selectTransfer url (pyJoin package_directory filename0))
  | _ => none

/-- The options record after `__main__` has filled in all defaults. -/
structure ResolvedOptions where
  num_processes : Nat
  package_identifier : String
  file_manifest : String
  retrieval_order : String
  destination_path : String

/-- The observable behaviour of `retrieve_package` (lines 28-80): the
package directory, the two copied files, the buckets, the single log
file opened by the parent at line 49, and one `WorkerOutput` per forked
worker. -/
structure RetrieveTrace where
  package_directory : String
  copied : List String
  buckets : List (List RetrievalItem)
  logPath : String
  workerResults : List WorkerOutput

/-- The behaviour of `retrieve_package(options)` under given oracles, with the
retrieval-order file contents supplied as `orderLines`. -/
def retrieve_package (o : ResolvedOptions) (orderLines : List String)
    (run : TransferCmd → Int) (mkdirs : String → Except OSErr Unit)
    (ts : Nat → String) : RetrieveTrace :=
  let package_directory := pyJoin o.destination_path o.package_identifier
  let buckets := retrievalOrders orderLines o.num_processes
  { package_directory := package_directory
    copied := [o.file_manifest, o.retrieval_order]
    buckets := buckets
    logPath := pyJoin package_directory "retrieval.log"
    workerResults := (List.range o.num_processes).map
      (fun i => workerRun package_directory run mkdirs ts (buckets.getD i [])) }

/-- The log handle worker `i` writes through.  In the source there is
exactly one file object: `logfile` is opened by the parent at line 49,
before the `os.fork()` at line 52, so every forked child inherits the
same open file description and line 76 writes through it. -/
def workerLogHandle (tr : RetrieveTrace) (_i : Nat) : String :=
  tr.logPath

/-! Package identifier generation (lines 22-25).

`str(int(time.time()))`: the current time in seconds (a non-negative
real, modelled as a rational), truncated to an integer and rendered in
decimal.  The decimal rendering of a natural number is spelled out so
that its correctness can be proved. -/

/-- The ASCII digit character for a digit value `d < 10`. -/
def digitChar (d : Nat) : Char :=
  Char.ofNat (48 + d)

/-- The digit value of an ASCII digit character. -/
def charDigit (c : Char) : Nat :=
  c.toNat - 48

/-- Base-10 digits of `n`, least significant first; `fuel ≥ n` makes the
recursion structural. -/
def decDigitsAux : Nat → Nat → List Nat
  | 0, _ => []
  | _ + 1, 0 => []
  | fuel + 1, n + 1 => ((n + 1) % 10) :: decDigitsAux fuel ((n + 1) / 10)

/-- Base-10 digits of `n`, most significant first. -/
def decDigits (n : Nat) : List Nat :=
  (decDigitsAux n n).reverse

/-- Value of a least-significant-first digit list. -/
def fromDigits : List Nat → Nat
  | [] => 0
  | d :: ds => d + 10 * fromDigits ds

/-- Python `str(n)` for a natural number `n`. -/
def pyIntStr (n : Nat) : String :=
  if n = 0 then "0" else String.mk ((decDigits n).map digitChar)

/-- Decode a decimal string back to a natural number (left inverse of
`pyIntStr`, used to prove it injective). -/
def decodeDec (s : String) : Nat :=
  fromDigits ((s.data.map charDigit).reverse)

/-- Lines 22-25, `generate_package_identifier`: `str(int(time.time()))`
at current time `t` (seconds since the epoch, non-negative). -/
def generate_package_identifier (t : ℚ) : String :=
  pyIntStr (Int.toNat ⌊t⌋)

/-- A non-empty string all of whose characters are ASCII decimal digits. -/
def isDecimalString (s : String) : Bool :=
  !s.data.isEmpty && s.data.all (fun c => 48 ≤ c.toNat && c.toNat ≤ 57)

/-! The program entry point, lines 83-111. -/

/-- The optparse option values as they stand after `parse_args`. -/
structure Options where
  num_processes : Nat
  package_identifier : Option String
  file_manifest : Option String
  retrieval_order : Option String
  destination_path : Option String

/-- How the process ends: `parser.error` (usage message, exit status 2,
nothing else done), or a completed run of `retrieve_package` followed by
falling off the end of the script (exit status `0`). -/
inductive MainOutcome where
  | usage (msg : String)
  | completed (status : Nat) (trace : RetrieveTrace)

/-- Lines 99-111, `__main__`: validate required options, fill defaults
(the identifier from the clock `now`, the destination from `cwd`), then
run `retrieve_package`. -/
def pyMain (opts : Options) (now : ℚ) (cwd : String) (orderLines : List String)
    (run : TransferCmd → Int) (mkdirs : String → Except OSErr Unit)
    (ts : Nat → String) : MainOutcome :=
  match opts.file_manifest with
  | none => .usage "Supply a file manifest with -m."
  | some m =>
    match opts.retrieval_order with
    | none => .usage "Supply a retrieval order with -r."
    | some r =>
      let pid := opts.package_identifier.getD (generate_package_identifier now)
      let dest := opts.destination_path.getD cwd
      .completed 0 (retrieve_package
        { num_processes := opts.num_processes, package_identifier := pid,
          file_manifest := m, retrieval_order := r, destination_path := dest }
        orderLines run mkdirs ts)

/-- The process exit status of the whole program: `parser.error` exits
with status 2. -/
def mainExitCode : MainOutcome → Nat
  | .usage _ => 2
  | .completed s _ => s

/-- How many workers were forked and waited for. -/
def mainWorkerCount : MainOutcome → Nat
  | .usage _ => 0
  | .completed _ tr => tr.workerResults.length

/-- Whether any work (directory creation, copying, parsing, retrieval)
was begun. -/
def mainPerformedWork : MainOutcome → Bool
  | .usage _ => false
  | .completed _ _ => true

/-- Whether a resolved path sits strictly inside a directory. -/
def isUnder (dir p : String) : Bool :=
  (dir ++ "/").data.isPrefixOf p.data

theorem length_consAt (B : List (List α)) (i : Nat) (x : α) :
    (consAt B i x).length = B.length := by
  simp [consAt]

theorem length_rrC (n : Nat) : ∀ (c : Nat) (xs : List α), (rrC n c xs).length = n := by
  intro c xs
  induction xs generalizing c with
  | nil => simp [rrC]
  | cons x xs ih => simp [rrC, length_consAt, ih]

theorem getD_nil_aux (j : Nat) : (([] : List (List α)).getD j []) = [] := by
  simp

theorem getD_replicate_nil (n j : Nat) : (List.replicate n ([] : List α)).getD j [] = [] := by
  induction n generalizing j with
  | zero => simp
  | succ n ih =>
    cases j with
    | zero => simp [List.replicate]
    | succ j =>
      rw [List.replicate, List.getD_cons_succ]
      exact ih j

theorem getD_set_self (B : List (List α)) (i : Nat) (b : List α) (h : i < B.length) :
    (B.set i b).getD i [] = b := by
  induction B generalizing i with
  | nil => simp at h
  | cons a B ih =>
    cases i with
    | zero => simp
    | succ i => simpa using ih i (by simpa using h)

theorem getD_set_ne (B : List (List α)) (i j : Nat) (b : List α) (h : i ≠ j) :
    (B.set i b).getD j [] = B.getD j [] := by
  induction B generalizing i j with
  | nil => simp
  | cons a B ih =>
    cases i with
    | zero => cases j with
      | zero => exact absurd rfl h
      | succ j => simp
    | succ i =>
      cases j with
      | zero => simp
      | succ j => simpa using ih i j (by omega)

theorem getD_consAt (B : List (List α)) (i j : Nat) (x : α) (hi : i < B.length) :
    (consAt B i x).getD j [] = if i = j then x :: B.getD j [] else B.getD j [] := by
  by_cases h : i = j
  · subst h
    rw [if_pos rfl]
    exact getD_set_self B i (x :: B.getD i []) hi
  · rw [if_neg h]
    exact getD_set_ne B i j (x :: B.getD i []) h

theorem rrC_getD (n : Nat) (hn : 0 < n) (j : Nat) :
    ∀ (c : Nat) (xs : List α),
      (rrC n c xs).getD j [] =
        ((idxFrom c xs).filter (fun p => p.1 % n == j)).map Prod.snd := by
  intro c xs
  induction xs generalizing c with
  | nil => simp [rrC, idxFrom, getD_replicate_nil]
  | cons x xs ih =>
    have hlen : (rrC n (c + 1) xs).length = n := length_rrC n (c + 1) xs
    have hmod : c % n < (rrC n (c + 1) xs).length := by rw [hlen]; exact Nat.mod_lt c hn
    rw [rrC, getD_consAt _ _ _ _ hmod, idxFrom]
    by_cases h : c % n = j
    · rw [if_pos h]
      simp only [List.filter_cons, h, beq_self_eq_true, List.map_cons, ih (c + 1)]
      simp
    · rw [if_neg h]
      have : ((c, x).1 % n == j) = false := by simpa using h
      simp only [List.filter_cons, this, ih (c + 1)]
      simp

theorem zipWith_append_consAt (x : α) :
    ∀ (B R : List (List α)) (i : Nat), B.length = R.length → i < B.length →
      List.zipWith (· ++ ·) (appendAt B i x) R = List.zipWith (· ++ ·) B (consAt R i x) := by
  intro B
  induction B with
  | nil => intro R i _ hi; simp at hi
  | cons b B ih =>
    intro R i hlen hi
    cases R with
    | nil => simp at hlen
    | cons r R =>
      cases i with
      | zero => simp [appendAt, consAt]
      | succ i =>
        simp only [appendAt, consAt, List.set_cons_succ, List.getD_cons_succ,
          List.zipWith_cons_cons]
        exact congrArg _ (ih R i (by simpa using hlen) (by simpa using hi))

theorem zipWith_append_replicate_nil :
    ∀ (B : List (List α)), List.zipWith (· ++ ·) B (List.replicate B.length []) = B := by
  intro B
  induction B with
  | nil => rfl
  | cons b B ih => simp [List.replicate, ih]

theorem distributeLoop_eq_rrC (n : Nat) (hn : 0 < n) :
    ∀ (xs : List α) (c : Nat) (B : List (List α)), B.length = n →
      distributeLoop xs n c B = List.zipWith (· ++ ·) B (rrC n c xs) := by
  intro xs
  induction xs with
  | nil =>
    intro c B hB
    rw [distributeLoop, rrC, ← hB, zipWith_append_replicate_nil]
  | cons x xs ih =>
    intro c B hB
    rw [distributeLoop, rrC,
      ih (c + 1) (appendAt B (c % n) x) (by simpa [appendAt] using hB),
      zipWith_append_consAt x B (rrC n (c + 1) xs) (c % n)
        (by rw [hB, length_rrC]) (by rw [hB]; exact Nat.mod_lt c hn)]

theorem zipWith_replicate_nil_append :
    ∀ (R : List (List α)), List.zipWith (· ++ ·) (List.replicate R.length []) R = R := by
  intro R
  induction R with
  | nil => rfl
  | cons r R ih => simp [List.replicate, ih]

theorem partitionRR_eq_rrC (items : List α) (n : Nat) (hn : 0 < n) :
    partitionRR items n = rrC n 0 items := by
  rw [partitionRR, distributeLoop_eq_rrC n hn items 0 (List.replicate n []) (by simp)]
  have h : n = (rrC n 0 items).length := (length_rrC n 0 items).symm
  nth_rewrite 1 [h]
  exact zipWith_replicate_nil_append (rrC n 0 items)

theorem sumLen_consAt (B : List (List α)) (i : Nat) (x : α) (hi : i < B.length) :
    sumLen (consAt B i x) = sumLen B + 1 := by
  induction B generalizing i with
  | nil => simp at hi
  | cons b B ih =>
    cases i with
    | zero => simp [consAt, sumLen]; omega
    | succ i =>
      have := ih i (by simpa using hi)
      simp only [consAt, List.set_cons_succ, List.getD_cons_succ, sumLen, List.map_cons,
        List.sum_cons] at *
      omega

theorem sumLen_rrC (n : Nat) (hn : 0 < n) :
    ∀ (c : Nat) (xs : List α), sumLen (rrC n c xs) = xs.length := by
  intro c xs
  induction xs generalizing c with
  | nil => simp [rrC, sumLen, List.map_replicate]
  | cons x xs ih =>
    rw [rrC, sumLen_consAt _ _ _ (by rw [length_rrC]; exact Nat.mod_lt c hn), ih (c + 1)]
    simp

theorem idxFrom_append (c : Nat) (xs ys : List α) :
    idxFrom c (xs ++ ys) = idxFrom c xs ++ idxFrom (c + xs.length) ys := by
  induction xs generalizing c with
  | nil => simp [idxFrom]
  | cons x xs ih =>
    simp only [List.cons_append, idxFrom, List.length_cons]
    rw [show c + (xs.length + 1) = (c + 1) + xs.length from by omega, ← ih (c + 1)]
    rfl

theorem idxFrom_shift (n : Nat) (ys : List α) :
    ∀ (c : Nat), idxFrom (c + n) ys = (idxFrom c ys).map (fun p => (p.1 + n, p.2)) := by
  induction ys with
  | nil => intro c; simp [idxFrom]
  | cons y ys ih =>
    intro c
    simp only [idxFrom, List.map_cons]
    have : c + n + 1 = (c + 1) + n := by omega
    rw [this, ih (c + 1)]

theorem filter_idxFrom_small (n j : Nat) (hj : j < n) :
    ∀ (ys : List α) (c : Nat), c + ys.length ≤ n →
      ((idxFrom c ys).filter (fun p => p.1 % n == j)).map Prod.snd =
        if c ≤ j then ((ys.drop (j - c)).head?).toList else [] := by
  intro ys
  induction ys with
  | nil =>
    intro c _
    simp [idxFrom]
  | cons y ys ih =>
    intro c hc
    have hcn : c < n := by simp at hc; omega
    have hcmod : c % n = c := Nat.mod_eq_of_lt hcn
    simp only [idxFrom, List.filter_cons]
    by_cases h : c = j
    · subst h
      simp only [hcmod, beq_self_eq_true, if_true, List.map_cons]
      rw [ih (c + 1) (by simp at hc ⊢; omega), if_neg (by omega)]
      simp
    · have hbeq : (c % n == j) = false := by
        rw [hcmod]; exact beq_eq_false_iff_ne.mpr h
      simp only [hbeq, Bool.false_eq_true, if_false]
      rw [ih (c + 1) (by simp at hc ⊢; omega)]
      by_cases hcj : c < j
      · rw [if_pos (by omega), if_pos (by omega),
          show j - c = (j - (c + 1)) + 1 from by omega, List.drop_succ_cons]
      · rw [if_neg (by omega), if_neg (by omega)]

theorem head?_take_pos (l : List α) (m : Nat) (hm : 0 < m) : (l.take m).head? = l.head? := by
  cases l with
  | nil => simp
  | cons a l =>
    cases m with
    | zero => omega
    | succ m => simp

theorem rrC_block (n j : Nat) (hn : 0 < n) (hj : j < n) (xs : List α) :
    (rrC n 0 xs).getD j [] =
      ((xs.drop j).head?).toList ++ (rrC n 0 (xs.drop n)).getD j [] := by
  rw [rrC_getD n hn j 0 xs]
  conv_lhs => rw [← List.take_append_drop n xs]
  rw [idxFrom_append, List.filter_append, List.map_append]
  have hA : ((idxFrom 0 (xs.take n)).filter (fun p => p.1 % n == j)).map Prod.snd =
      ((xs.drop j).head?).toList := by
    rw [filter_idxFrom_small n j hj (xs.take n) 0 (by simp), if_pos (Nat.zero_le j)]
    rw [Nat.sub_zero]
    have hdt : (xs.take n).drop j = (xs.drop j).take (n - j) := by
      rw [List.take_drop, show j + (n - j) = n from by omega]
    rw [hdt, head?_take_pos _ _ (by omega)]
  rw [hA]
  congr 1
  rcases Nat.le_total xs.length n with h | h
  · rw [List.drop_eq_nil_of_le h]
    simp [idxFrom, rrC, getD_replicate_nil]
  · have hlt : (xs.take n).length = n := by simp; omega
    have hshift : idxFrom n (xs.drop n) =
        (idxFrom 0 (xs.drop n)).map (fun p => (p.1 + n, p.2)) := by
      have := idxFrom_shift n (xs.drop n) 0
      rwa [Nat.zero_add] at this
    rw [hlt, Nat.zero_add, hshift, List.filter_map]
    have hpred : ((fun p => p.1 % n == j) ∘ (fun p : Nat × α => (p.1 + n, p.2))) =
        (fun p : Nat × α => p.1 % n == j) := by
      funext p
      simp [Nat.add_mod_right]
    rw [hpred, List.map_map]
    rw [rrC_getD n hn j 0 (xs.drop n)]
    rfl

theorem rrC_bucket_len (n j : Nat) (hn : 0 < n) (hj : j < n) :
    ∀ (k : Nat) (xs : List α), xs.length = k →
      ((rrC n 0 xs).getD j []).length = (xs.length + n - 1 - j) / n := by
  intro k
  induction k using Nat.strong_induction_on with
  | _ k ih =>
    intro xs hk
    rw [rrC_block n j hn hj xs, List.length_append]
    by_cases hjk : j < xs.length
    · have hhead : ((xs.drop j).head?).toList.length = 1 := by
        have hne : xs.drop j ≠ [] := by
          rw [Ne, List.drop_eq_nil_iff]; omega
        cases hcase : xs.drop j with
        | nil => exact absurd hcase hne
        | cons a l => simp [hcase]
      rw [hhead]
      rcases Nat.lt_or_ge n xs.length with hnk | hnk
      · have hdl : (xs.drop n).length = xs.length - n := by simp
        rw [ih (xs.length - n) (by omega) (xs.drop n) hdl, hdl,
          show xs.length - n + n - 1 - j = xs.length - 1 - j from by omega,
          show xs.length + n - 1 - j = (xs.length - 1 - j) + n from by omega,
          Nat.add_div_right _ hn]
        omega
      · rw [List.drop_eq_nil_of_le hnk,
          show (rrC n 0 ([] : List α)) = List.replicate n [] from rfl,
          getD_replicate_nil n j,
          show xs.length + n - 1 - j = (xs.length - 1 - j) + n from by omega,
          Nat.add_div_right _ hn, Nat.div_eq_of_lt (by omega)]
        simp
    · rw [List.drop_eq_nil_of_le (by omega : xs.length ≤ j),
        List.drop_eq_nil_of_le (by omega : xs.length ≤ n),
        show (rrC n 0 ([] : List α)) = List.replicate n [] from rfl,
        getD_replicate_nil n j, Nat.div_eq_of_lt (by omega)]
      simp

theorem getD_eq_nil_of_le (L : List (List α)) (j : Nat) (h : L.length ≤ j) :
    L.getD j [] = [] := by
  induction L generalizing j with
  | nil => simp
  | cons b B ih =>
    cases j with
    | zero => simp at h
    | succ j => simpa using ih j (by simpa using h)

theorem ext_getD : ∀ (L M : List (List α)), L.length = M.length →
    (∀ j, L.getD j [] = M.getD j []) → L = M := by
  intro L
  induction L with
  | nil =>
    intro M hlen _
    cases M with
    | nil => rfl
    | cons m M => simp at hlen
  | cons b B ih =>
    intro M hlen hget
    cases M with
    | nil => simp at hlen
    | cons m M =>
      have h0 := hget 0
      simp only [List.getD_cons_zero] at h0
      subst h0
      have := ih M (by simpa using hlen) (fun j => by simpa using hget (j + 1))
      rw [this]

theorem length_consHeads :
    ∀ (hs : List α) (B : List (List α)), hs.length ≤ B.length →
      (consHeads hs B).length = B.length := by
  intro hs
  induction hs with
  | nil => intro B _; rfl
  | cons x xs ih =>
    intro B h
    cases B with
    | nil => simp at h
    | cons b B => simpa [consHeads] using ih B (by simpa using h)

theorem getD_consHeads :
    ∀ (hs : List α) (B : List (List α)), hs.length ≤ B.length → ∀ (j : Nat),
      (consHeads hs B).getD j [] = ((hs.drop j).head?).toList ++ B.getD j [] := by
  intro hs
  induction hs with
  | nil => intro B _ j; simp [consHeads]
  | cons x xs ih =>
    intro B h j
    cases B with
    | nil => simp at h
    | cons b B =>
      cases j with
      | zero => simp [consHeads]
      | succ j => simpa [consHeads] using ih B (by simpa using h) j

theorem filterMap_head_all_nil (B : List (List α)) (h : ∀ b ∈ B, b = []) :
    B.filterMap List.head? = [] := by
  induction B with
  | nil => rfl
  | cons b B ih =>
    have hb : b = [] := h b (by simp)
    subst hb
    simpa using ih (fun b hb => h b (by simp [hb]))

theorem filterMap_head_consHeads :
    ∀ (hs : List α) (B : List (List α)), hs.length ≤ B.length →
      (∀ b ∈ B.drop hs.length, b = []) →
      (consHeads hs B).filterMap List.head? = hs := by
  intro hs
  induction hs with
  | nil =>
    intro B _ hdrop
    exact filterMap_head_all_nil B (by simpa using hdrop)
  | cons x xs ih =>
    intro B h hdrop
    cases B with
    | nil => simp at h
    | cons b B =>
      simpa [consHeads] using ih B (by simpa using h) (by simpa using hdrop)

theorem map_tail_all_nil (B : List (List α)) (h : ∀ b ∈ B, b = []) :
    B.map List.tail = B := by
  induction B with
  | nil => rfl
  | cons b B ih =>
    have hb : b = [] := h b (by simp)
    subst hb
    simpa using ih (fun b hb => h b (by simp [hb]))

theorem map_tail_consHeads :
    ∀ (hs : List α) (B : List (List α)), hs.length ≤ B.length →
      (∀ b ∈ B.drop hs.length, b = []) →
      (consHeads hs B).map List.tail = B := by
  intro hs
  induction hs with
  | nil =>
    intro B _ hdrop
    exact map_tail_all_nil B (by simpa using hdrop)
  | cons x xs ih =>
    intro B h hdrop
    cases B with
    | nil => simp at h
    | cons b B =>
      simpa [consHeads] using ih B (by simpa using h) (by simpa using hdrop)

theorem drop_rrC_all_nil (n : Nat) (_hn : 0 < n) (xs : List α) :
    ∀ b ∈ (rrC n 0 (xs.drop n)).drop (xs.take n).length, b = [] := by
  intro b hb
  rcases Nat.le_total n xs.length with h | h
  · have hlen : (xs.take n).length = n := by simp; omega
    rw [hlen] at hb
    have : (rrC n 0 (xs.drop n)).length = n := length_rrC n 0 _
    rw [List.drop_eq_nil_of_le (by omega)] at hb
    simp at hb
  · rw [List.drop_eq_nil_of_le h, rrC] at hb
    have := List.mem_of_mem_drop hb
    simpa using List.eq_of_mem_replicate this

theorem rrC_block_list (n : Nat) (hn : 0 < n) (xs : List α) :
    rrC n 0 xs = consHeads (xs.take n) (rrC n 0 (xs.drop n)) := by
  have htle : (xs.take n).length ≤ (rrC n 0 (xs.drop n)).length := by
    rw [length_rrC]; simp
  apply ext_getD
  · rw [length_rrC, length_consHeads _ _ htle, length_rrC]
  · intro j
    rcases Nat.lt_or_ge j n with hj | hj
    · rw [rrC_block n j hn hj xs, getD_consHeads _ _ htle j]
      congr 2
      rcases Nat.le_total xs.length j with h2 | h2
      · rw [List.drop_eq_nil_of_le h2,
          @List.drop_eq_nil_of_le _ (xs.take n) j (by simp; omega)]
      · have e1 : List.drop j (List.take n xs) = (List.drop j xs).take (n - j) := by
          rw [List.take_drop, show j + (n - j) = n from by omega]
        rw [e1, head?_take_pos _ _ (by omega : 0 < n - j)]
    · rw [getD_eq_nil_of_le _ _ (by rw [length_rrC]; omega),
        getD_eq_nil_of_le _ _ (by rw [length_consHeads _ _ htle, length_rrC]; omega)]

theorem replicate_nil_all_isEmpty (n : Nat) :
    (List.replicate n ([] : List α)).all List.isEmpty = true := by
  simp [List.all_eq_true]

theorem rrInterleaveGo_rrC (n : Nat) (hn : 0 < n) :
    ∀ (fuel : Nat) (xs : List α), xs.length ≤ fuel →
      rrInterleaveGo fuel (rrC n 0 xs) = xs := by
  intro fuel
  induction fuel with
  | zero =>
    intro xs h
    have : xs = [] := List.eq_nil_of_length_eq_zero (by omega)
    subst this
    rfl
  | succ fuel ih =>
    intro xs h
    cases xs with
    | nil =>
      rw [rrC, rrInterleaveGo, if_pos (replicate_nil_all_isEmpty n)]
    | cons x xs' =>
      rw [rrC_block_list n hn (x :: xs'), rrInterleaveGo]
      have htake : (x :: xs').take n = x :: (xs'.take (n - 1)) := by
        cases n with
        | zero => omega
        | succ m => simp
      have htle : ((x :: xs').take n).length ≤ (rrC n 0 ((x :: xs').drop n)).length := by
        rw [length_rrC]; simp
      have hdropnil := drop_rrC_all_nil n hn (x :: xs')
      have hnotempty :
          (consHeads ((x :: xs').take n) (rrC n 0 ((x :: xs').drop n))).all
            List.isEmpty = false := by
        rw [htake]
        cases hB : rrC n 0 ((x :: xs').drop n) with
        | nil =>
          have := length_rrC n 0 ((x :: xs').drop n)
          rw [hB] at this
          simp at this
          omega
        | cons b B => simp [consHeads]
      rw [if_neg (by simp [hnotempty]),
        filterMap_head_consHeads _ _ htle hdropnil,
        map_tail_consHeads _ _ htle hdropnil,
        ih ((x :: xs').drop n) (by simp at h ⊢; omega)]
      exact List.take_append_drop n (x :: xs')

theorem rrInterleave_rrC (n : Nat) (hn : 0 < n) (xs : List α) :
    rrInterleave (rrC n 0 xs) = xs := by
  rw [rrInterleave, sumLen_rrC n hn 0 xs]
  exact rrInterleaveGo_rrC n hn xs.length xs (Nat.le_refl _)

theorem mem_idxFrom [Inhabited α] :
    ∀ (xs : List α) (c i : Nat), i < xs.length →
      ((c + i, xs.getD i default) ∈ idxFrom c xs) := by
  intro xs
  induction xs with
  | nil => intro c i hi; simp at hi
  | cons x xs ih =>
    intro c i hi
    cases i with
    | zero => simp [idxFrom]
    | succ i =>
      have := ih (c + 1) i (by simpa using hi)
      rw [show c + (i + 1) = (c + 1) + i from by omega]
      simp only [idxFrom, List.getD_cons_succ]
      exact List.mem_cons_of_mem _ this

theorem rrC_mem_bucket [Inhabited α] (n : Nat) (hn : 0 < n) (items : List α)
    (i : Nat) (hi : i < items.length) :
    items.getD i default ∈ (rrC n 0 items).getD (i % n) [] := by
  rw [rrC_getD n hn (i % n) 0 items]
  have hmem : ((0 + i : Nat), items.getD i default) ∈ idxFrom 0 items :=
    mem_idxFrom items 0 i hi
  rw [Nat.zero_add] at hmem
  have hkeep : ((i, items.getD i default) ∈
      (idxFrom 0 items).filter (fun p => p.1 % n == i % n)) := by
    rw [List.mem_filter]
    exact ⟨hmem, by simp⟩
  exact List.mem_map_of_mem Prod.snd hkeep

/-- C1: round-robin partitioning: item `i` lands in bucket `i % n`; there are
exactly `n` buckets; sizes sum to the item count; every bucket has either
`⌊k/n⌋` or `⌈k/n⌉` elements; and round-robin interleaving of the buckets
restores the original list. -/
theorem c1_round_robin_partition {α : Type} [Inhabited α] (items : List α) (n j i : Nat)
    (hn : 1 ≤ n) (hj : j < n) (hi : i < items.length) :
    (partitionRR items n).length = n ∧
    sumLen (partitionRR items n) = items.length ∧
    (((partitionRR items n).getD j []).length = items.length / n ∨
      ((partitionRR items n).getD j []).length = (items.length + n - 1) / n) ∧
    items.getD i default ∈ (partitionRR items n).getD (i % n) [] ∧
    rrInterleave (partitionRR items n) = items := by
  have hn' : 0 < n := hn
  rw [partitionRR_eq_rrC items n hn']
  refine ⟨length_rrC n 0 items, sumLen_rrC n hn' 0 items, ?_, ?_, ?_⟩
  · rw [rrC_bucket_len n j hn' hj items.length items rfl]
    have h1 : items.length ≤ items.length + n - 1 - j := by omega
    have h2 : items.length + n - 1 - j ≤ items.length + n - 1 := by omega
    have l1 : items.length / n ≤ (items.length + n - 1 - j) / n :=
      Nat.div_le_div_right h1
    have l2 : (items.length + n - 1 - j) / n ≤ (items.length + n - 1) / n :=
      Nat.div_le_div_right h2
    have l3 : (items.length + n - 1) / n ≤ items.length / n + 1 := by
      have : (items.length + n - 1) / n ≤ (items.length + n) / n :=
        Nat.div_le_div_right (by omega)
      rwa [Nat.add_div_right _ hn'] at this
    omega
  · exact rrC_mem_bucket n hn' items i hi
  · exact rrInterleave_rrC n hn' items

theorem c1_round_robin_partition_witness :
    (partitionRR [10, 20, 30, 40, 50] 2).length = 2 ∧
    sumLen (partitionRR [10, 20, 30, 40, 50] 2) = [10, 20, 30, 40, 50].length ∧
    (((partitionRR [10, 20, 30, 40, 50] 2).getD 1 []).length =
        [10, 20, 30, 40, 50].length / 2 ∨
      ((partitionRR [10, 20, 30, 40, 50] 2).getD 1 []).length =
        ([10, 20, 30, 40, 50].length + 2 - 1) / 2) ∧
    [10, 20, 30, 40, 50].getD 3 default ∈
      (partitionRR [10, 20, 30, 40, 50] 2).getD (3 % 2) [] ∧
    rrInterleave (partitionRR [10, 20, 30, 40, 50] 2) = [10, 20, 30, 40, 50] :=
  c1_round_robin_partition [10, 20, 30, 40, 50] 2 1 3 (by decide) (by decide) (by decide)

theorem tryExceptOS_ok (a : Except OSErr Unit) : tryExceptOSPass a = .ok () := by
  cases a <;> rfl

theorem processFetch_eq (pkg : String) (run : TransferCmd → Int)
    (mkdirs : String → Except OSErr Unit) (ts url fn0 : String) :
    processFetch pkg run mkdirs ts url fn0 =
      .ok { cmd := selectTransfer url (pyJoin pkg fn0),
            ret := run (selectTransfer url (pyJoin pkg fn0)),
            logLine := mkLogLine ts (pyJoin pkg fn0)
              (run (selectTransfer url (pyJoin pkg fn0))) } := by
  simp only [processFetch, tryExceptOS_ok]

theorem processItem_wf (pkg : String) (run : TransferCmd → Int)
    (mkdirs : String → Except OSErr Unit) (ts : String) (it : RetrievalItem)
    (h : it.length = 2 ∨ it.length = 3) :
    ∃ r : ItemResult, processItem pkg run mkdirs ts it = .ok r ∧
      itemCmd pkg it = some r.cmd := by
  match it with
  | [url, fn0] =>
    exact ⟨_, processFetch_eq pkg run mkdirs ts url fn0, rfl⟩
  | [url, fs, fn0] =>
    exact ⟨_, processFetch_eq pkg run mkdirs ts url fn0, rfl⟩
  | [] => simp at h
  | [_] => simp at h
  | _ :: _ :: _ :: _ :: _ => simp at h

theorem workerSteps_wf (pkg : String) (run : TransferCmd → Int)
    (mkdirs : String → Except OSErr Unit) (ts : Nat → String) :
    ∀ (bucket : List RetrievalItem) (idx : Nat),
      (∀ it ∈ bucket, it.length = 2 ∨ it.length = 3) →
      (workerSteps pkg run mkdirs ts idx bucket).outcome = .ok () ∧
      (workerSteps pkg run mkdirs ts idx bucket).log.length = bucket.length ∧
      (workerSteps pkg run mkdirs ts idx bucket).attempts =
        bucket.filterMap (itemCmd pkg) := by
  intro bucket
  induction bucket with
  | nil => intro idx _; refine ⟨rfl, rfl, rfl⟩
  | cons it rest ih =>
    intro idx hwf
    obtain ⟨r, hr, hcmd⟩ :=
      processItem_wf pkg run mkdirs (ts idx) it (hwf it (by simp))
    have hrest := ih (idx + 1) (fun x hx => hwf x (by simp [hx]))
    rw [workerSteps, hr]
    refine ⟨hrest.1, by simpa using hrest.2.1, ?_⟩
    simp only [List.filterMap_cons, hcmd, hrest.2.2]

/-- C2: a worker attempts every well-formed item of its bucket in order,
writes one log line per item, and exits with status 0, no matter what exit
codes the transfers return (in particular when every transfer fails). -/
theorem c2_worker_attempts_all (pkg : String) (run : TransferCmd → Int)
    (mkdirs : String → Except OSErr Unit) (ts : Nat → String)
    (bucket : List RetrievalItem)
    (hwf : ∀ it ∈ bucket, it.length = 2 ∨ it.length = 3) :
    (workerRun pkg run mkdirs ts bucket).outcome = .ok () ∧
    workerExitStatus (workerRun pkg run mkdirs ts bucket) = 0 ∧
    (workerRun pkg run mkdirs ts bucket).log.length = bucket.length ∧
    (workerRun pkg run mkdirs ts bucket).attempts =
      bucket.filterMap (itemCmd pkg) := by
  have h := workerSteps_wf pkg run mkdirs ts bucket 0 hwf
  exact ⟨h.1, by rw [workerExitStatus, workerRun, h.1], h.2.1, h.2.2⟩

theorem c2_worker_attempts_all_witness :
    (workerRun "/p" (fun _ => 1) (fun _ => .error ⟨13⟩) (fun _ => "t")
        [["u1", "f1"], ["u2", "9", "f2"]]).outcome = .ok () ∧
    workerExitStatus (workerRun "/p" (fun _ => 1) (fun _ => .error ⟨13⟩) (fun _ => "t")
        [["u1", "f1"], ["u2", "9", "f2"]]) = 0 ∧
    (workerRun "/p" (fun _ => 1) (fun _ => .error ⟨13⟩) (fun _ => "t")
        [["u1", "f1"], ["u2", "9", "f2"]]).log.length =
      [["u1", "f1"], ["u2", "9", "f2"]].length ∧
    (workerRun "/p" (fun _ => 1) (fun _ => .error ⟨13⟩) (fun _ => "t")
        [["u1", "f1"], ["u2", "9", "f2"]]).attempts =
      [["u1", "f1"], ["u2", "9", "f2"]].filterMap (itemCmd "/p") :=
  c2_worker_attempts_all "/p" (fun _ => 1) (fun _ => .error ⟨13⟩) (fun _ => "t")
    [["u1", "f1"], ["u2", "9", "f2"]] (by decide)

theorem processItem_mkdirs_indep (pkg : String) (run : TransferCmd → Int)
    (mk1 mk2 : String → Except OSErr Unit) (ts : String) :
    ∀ it : RetrievalItem,
      processItem pkg run mk1 ts it = processItem pkg run mk2 ts it := by
  intro it
  match it with
  | [url, fn0] => rw [processItem, processItem, processFetch_eq, processFetch_eq]
  | [url, fs, fn0] => rw [processItem, processItem, processFetch_eq, processFetch_eq]
  | [] => rfl
  | [_] => rfl
  | _ :: _ :: _ :: _ :: _ => rfl

/-- C6: the worker's behaviour does not depend on the outcome of the
directory-creation step at all: `os.makedirs` failures — "already exists"
or any other `OSError` — are swallowed, the worker never aborts there and
always proceeds to attempt the transfer. -/
theorem c6_directory_creation_tolerated (pkg : String) (run : TransferCmd → Int)
    (ts : Nat → String) (bucket : List RetrievalItem)
    (mkdirs : String → Except OSErr Unit) :
    workerRun pkg run mkdirs ts bucket = workerRun pkg run (fun _ => .ok ()) ts bucket := by
  rw [workerRun, workerRun]
  generalize 0 = idx
  induction bucket generalizing idx with
  | nil => rfl
  | cons it rest ih =>
    rw [workerSteps, workerSteps,
      processItem_mkdirs_indep pkg run mkdirs (fun _ => .ok ()) (ts idx) it]
    cases processItem pkg run (fun _ => .ok ()) (ts idx) it with
    | error e => rfl
    | ok r => rw [ih (idx + 1)]

theorem processItem_malformed (pkg : String) (run : TransferCmd → Int)
    (mkdirs : String → Except OSErr Unit) (ts : String) (it : RetrievalItem)
    (h2 : it.length ≠ 2) (h3 : it.length ≠ 3) :
    processItem pkg run mkdirs ts it = .error .valueError := by
  match it with
  | [] => rfl
  | [_] => rfl
  | [_, _] => simp at h2
  | [_, _, _] => simp at h3
  | _ :: _ :: _ :: _ :: _ => rfl

theorem workerSteps_bad (pkg : String) (run : TransferCmd → Int)
    (mkdirs : String → Except OSErr Unit) (ts : Nat → String)
    (bad : RetrievalItem) (rest : List RetrievalItem)
    (hbad2 : bad.length ≠ 2) (hbad3 : bad.length ≠ 3) :
    ∀ (good : List RetrievalItem) (idx : Nat),
      (∀ it ∈ good, it.length = 2 ∨ it.length = 3) →
      (workerSteps pkg run mkdirs ts idx (good ++ bad :: rest)).outcome =
        .error .valueError ∧
      (workerSteps pkg run mkdirs ts idx (good ++ bad :: rest)).log.length =
        good.length ∧
      (workerSteps pkg run mkdirs ts idx (good ++ bad :: rest)).attempts =
        good.filterMap (itemCmd pkg) := by
  intro good
  induction good with
  | nil =>
    intro idx _
    rw [List.nil_append, workerSteps,
      processItem_malformed pkg run mkdirs (ts idx) bad hbad2 hbad3]
    exact ⟨rfl, rfl, rfl⟩
  | cons g good ih =>
    intro idx hwf
    obtain ⟨r, hr, hcmd⟩ :=
      processItem_wf pkg run mkdirs (ts idx) g (hwf g (by simp))
    have hrest := ih (idx + 1) (fun x hx => hwf x (by simp [hx]))
    rw [List.cons_append, workerSteps, hr]
    refine ⟨hrest.1, by simpa using hrest.2.1, ?_⟩
    simp only [List.filterMap_cons, hcmd, hrest.2.2]

/-- C3 counterexample: a 4-token line is not rejected while the
retrieval-order file is parsed and distributed — it lands in a bucket —
and the worker performs retrieval work (one transfer of the preceding
item) before the malformed line raises its unpacking error. -/
theorem c3_counterexample :
    retrievalOrders ["u1 f1", "a b c d"] 1 = [[["u1", "f1"], ["a", "b", "c", "d"]]] ∧
    (workerRun "/p" (fun _ => 0) (fun _ => .ok ()) (fun _ => "t")
        [["u1", "f1"], ["a", "b", "c", "d"]]).attempts.length = 1 ∧
    (workerRun "/p" (fun _ => 0) (fun _ => .ok ()) (fun _ => "t")
        [["u1", "f1"], ["a", "b", "c", "d"]]).outcome = .error .valueError :=
  ⟨rfl, rfl, rfl⟩

/-- C3 (amended): a token count outside {2,3} is not a parse-time error;
the malformed tuple is distributed to a bucket like any other, and the
worker that owns it raises `ValueError` when it reaches the item — after
having attempted and logged all earlier items of its bucket — dying with
a non-zero status while other workers are unaffected. -/
theorem c3_amended (pkg : String) (run : TransferCmd → Int)
    (mkdirs : String → Except OSErr Unit) (ts : Nat → String)
    (good rest : List RetrievalItem) (bad : RetrievalItem)
    (hgood : ∀ it ∈ good, it.length = 2 ∨ it.length = 3)
    (hbad2 : bad.length ≠ 2) (hbad3 : bad.length ≠ 3) :
    (workerRun pkg run mkdirs ts (good ++ bad :: rest)).outcome = .error .valueError ∧
    workerExitStatus (workerRun pkg run mkdirs ts (good ++ bad :: rest)) = 1 ∧
    (workerRun pkg run mkdirs ts (good ++ bad :: rest)).log.length = good.length ∧
    (workerRun pkg run mkdirs ts (good ++ bad :: rest)).attempts =
      good.filterMap (itemCmd pkg) := by
  have h := workerSteps_bad pkg run mkdirs ts bad rest hbad2 hbad3 good 0 hgood
  exact ⟨h.1, by rw [workerExitStatus, workerRun, h.1], h.2.1, h.2.2⟩

theorem c3_amended_witness :
    (workerRun "/p" (fun _ => 1) (fun _ => .ok ()) (fun _ => "t")
        ([["u", "f"]] ++ ["a"] :: [["q", "r"]])).outcome = .error .valueError ∧
    workerExitStatus (workerRun "/p" (fun _ => 1) (fun _ => .ok ()) (fun _ => "t")
        ([["u", "f"]] ++ ["a"] :: [["q", "r"]])) = 1 ∧
    (workerRun "/p" (fun _ => 1) (fun _ => .ok ()) (fun _ => "t")
        ([["u", "f"]] ++ ["a"] :: [["q", "r"]])).log.length = [["u", "f"]].length ∧
    (workerRun "/p" (fun _ => 1) (fun _ => .ok ()) (fun _ => "t")
        ([["u", "f"]] ++ ["a"] :: [["q", "r"]])).attempts =
      [["u", "f"]].filterMap (itemCmd "/p") :=
  c3_amended "/p" (fun _ => 1) (fun _ => .ok ()) (fun _ => "t")
    [["u", "f"]] [["q", "r"]] ["a"] (by decide) (by decide) (by decide)

/-- C5 counterexample: an empty line does yield an item — the empty token
tuple — and that item is assigned to a bucket: with one worker and lines
`["a b", ""]` the bucket holds two items, the second being `[]`. -/
theorem c5_counterexample :
    sumLen (retrievalOrders ["a b", ""] 1) = 2 ∧
    lineItem "" = [] ∧
    [] ∈ (retrievalOrders ["a b", ""] 1).getD 0 [] :=
  ⟨rfl, rfl, by decide⟩

/-- C5 (amended): the parser produces exactly one item per line of the
retrieval-order file — empty lines included, which yield the empty token
tuple — and every such item is assigned to a bucket; interleaving the
buckets round-robin recovers the per-line items in file order. -/
theorem c5_amended (orderLines : List String) (n : Nat) (hn : 1 ≤ n) :
    sumLen (retrievalOrders orderLines n) = orderLines.length ∧
    rrInterleave (retrievalOrders orderLines n) = orderLines.map lineItem := by
  have hn' : 0 < n := hn
  rw [retrievalOrders, partitionRR_eq_rrC _ n hn']
  constructor
  · rw [sumLen_rrC n hn' 0]
    exact List.length_map orderLines lineItem
  · exact rrInterleave_rrC n hn' (orderLines.map lineItem)

theorem c5_amended_witness :
    sumLen (retrievalOrders ["a b", "", "c d e"] 2) = ["a b", "", "c d e"].length ∧
    rrInterleave (retrievalOrders ["a b", "", "c d e"] 2) =
      ["a b", "", "c d e"].map lineItem :=
  c5_amended ["a b", "", "c d e"] 2 (by decide)

/-- C4 counterexample: `rsyncx://h/p` has scheme token `rsyncx`, which is
not the rsync scheme, yet the selector routes it to the rsync mirror
transfer (the code tests the textual prefix `rsync`, not the scheme). -/
theorem c4_counterexample :
    schemeToken "rsyncx://h/p" ≠ "rsync" ∧
    selectTransfer "rsyncx://h/p" "/d/f" = .rsyncMirror "rsyncx://h/p" "/d/f" :=
  ⟨by decide, rfl⟩

theorem schemeToken_rsync_startsWith (url : String) (h : schemeToken url = "rsync") :
    pyStartsWith url "rsync" = true := by
  have hd : url.data.takeWhile (fun c => c ≠ ':') = "rsync".data := congrArg String.data h
  have hpre : "rsync".data <+: url.data := by
    rw [← hd]
    exact List.takeWhile_prefix _
  rw [pyStartsWith]
  exact List.isPrefixOf_iff_prefix.mpr hpre

theorem schemeToken_head (url : String) (s : String) (c : Char) (cs : List Char)
    (h : schemeToken url = s) (hs : s.data = c :: cs) :
    ∃ t, url.data = c :: t := by
  have hd : url.data.takeWhile (fun ch => ch ≠ ':') = c :: cs := by
    rw [← hs]
    exact congrArg String.data h
  cases hu : url.data with
  | nil => rw [hu] at hd; simp at hd
  | cons d t =>
    rw [hu, List.takeWhile_cons] at hd
    by_cases hdc : (d ≠ ':' : Bool)
    · rw [if_pos hdc] at hd
      exact ⟨t, by rw [List.cons.injEq] at hd; rw [hd.1]⟩
    · rw [if_neg hdc] at hd
      simp at hd

/-- C4 (amended): the selector keys on the textual prefix `rsync`, not on
the scheme: every URL whose scheme token is `rsync` goes to the rsync
mirror transfer, and URLs with scheme `http`, `https` or `ftp` (none of
which can start with `rsync`) go to the generic quiet wget fetch; the
worker records the spawned process's exit code unmodified. -/
theorem c4_amended (u1 u2 fn pkg : String) (run : TransferCmd → Int)
    (mkdirs : String → Except OSErr Unit) (ts : String)
    (h1 : schemeToken u1 = "rsync")
    (h2 : schemeToken u2 ∈ (["http", "https", "ftp"] : List String)) :
    selectTransfer u1 fn = .rsyncMirror u1 fn ∧
    selectTransfer u2 fn = .wgetFetch fn u2 ∧
    processItem pkg run mkdirs ts [u1, fn] =
      .ok { cmd := selectTransfer u1 (pyJoin pkg fn),
            ret := run (selectTransfer u1 (pyJoin pkg fn)),
            logLine := mkLogLine ts (pyJoin pkg fn)
              (run (selectTransfer u1 (pyJoin pkg fn))) } := by
  refine ⟨?_, ?_, processFetch_eq pkg run mkdirs ts u1 fn⟩
  · rw [selectTransfer, if_pos (schemeToken_rsync_startsWith u1 h1)]
  · have hnot : pyStartsWith u2 "rsync" = false := by
      cases hb : pyStartsWith u2 "rsync" with
      | false => rfl
      | true =>
        have hpre : "rsync".data <+: u2.data := by
          rw [pyStartsWith] at hb
          exact List.isPrefixOf_iff_prefix.mp hb
        obtain ⟨t, ht⟩ := hpre
        have hu2 : ∃ t2, u2.data = 'r' :: t2 := ⟨"sync".data ++ t, by rw [← ht]; rfl⟩
        obtain ⟨t2, ht2⟩ := hu2
        simp only [List.mem_cons, List.mem_singleton, List.not_mem_nil, or_false] at h2
        rcases h2 with h2 | h2 | h2
        · obtain ⟨t3, ht3⟩ := schemeToken_head u2 "http" 'h' "ttp".data h2 rfl
          rw [ht2] at ht3
          simp at ht3
        · obtain ⟨t3, ht3⟩ := schemeToken_head u2 "https" 'h' "ttps".data h2 rfl
          rw [ht2] at ht3
          simp at ht3
        · obtain ⟨t3, ht3⟩ := schemeToken_head u2 "ftp" 'f' "tp".data h2 rfl
          rw [ht2] at ht3
          simp at ht3
    rw [selectTransfer, hnot]
    simp

theorem c4_amended_witness :
    selectTransfer "rsync://h/p" "/d/f" = .rsyncMirror "rsync://h/p" "/d/f" ∧
    selectTransfer "http://h/p" "/d/f" = .wgetFetch "/d/f" "http://h/p" ∧
    processItem "/d" (fun _ => 7) (fun _ => .ok ()) "t" ["rsync://h/p", "/d/f"] =
      .ok { cmd := selectTransfer "rsync://h/p" (pyJoin "/d" "/d/f"),
            ret := (fun _ => (7 : Int)) (selectTransfer "rsync://h/p" (pyJoin "/d" "/d/f")),
            logLine := mkLogLine "t" (pyJoin "/d" "/d/f")
              ((fun _ => (7 : Int)) (selectTransfer "rsync://h/p" (pyJoin "/d" "/d/f"))) } :=
  c4_amended "rsync://h/p" "http://h/p" "/d/f" "/d" (fun _ => 7) (fun _ => .ok ()) "t"
    (by decide) (by decide)

/-- C7: a missing manifest or retrieval-order option makes the program
stop at `parser.error` — a usage message and exit status 2, with no work
performed; with both supplied and at least one worker configured
(`num_processes = 0` is outside this claim: there line 45 of the source
would raise `ZeroDivisionError` on a nonempty order file and the process
would die with a non-zero status), the process exits 0 after waiting for
all `num_processes` workers, whatever exit codes the individual
transfers returned. -/
theorem c7_cli_exit (o1 o2 : Options) (m r : String) (now : ℚ) (cwd : String)
    (orderLines : List String) (run1 run2 : TransferCmd → Int)
    (mkdirs : String → Except OSErr Unit) (ts : Nat → String)
    (h1 : o1.file_manifest = none ∨ o1.retrieval_order = none)
    (hm : o2.file_manifest = some m) (hr : o2.retrieval_order = some r)
    (_hn : 1 ≤ o2.num_processes) :
    (∃ msg, pyMain o1 now cwd orderLines run1 mkdirs ts = .usage msg) ∧
    mainExitCode (pyMain o1 now cwd orderLines run1 mkdirs ts) ≠ 0 ∧
    mainPerformedWork (pyMain o1 now cwd orderLines run1 mkdirs ts) = false ∧
    mainExitCode (pyMain o2 now cwd orderLines run2 mkdirs ts) = 0 ∧
    mainWorkerCount (pyMain o2 now cwd orderLines run2 mkdirs ts) = o2.num_processes := by
  obtain ⟨np1, pid1, fm1, ro1, dp1⟩ := o1
  obtain ⟨np2, pid2, fm2, ro2, dp2⟩ := o2
  have hm2 : fm2 = some m := hm
  have hr2 : ro2 = some r := hr
  subst hm2
  subst hr2
  have husage : ∃ msg,
      pyMain ⟨np1, pid1, fm1, ro1, dp1⟩ now cwd orderLines run1 mkdirs ts =
        .usage msg := by
    have h1' : fm1 = none ∨ ro1 = none := h1
    rcases h1' with h | h
    · subst h
      exact ⟨_, rfl⟩
    · subst h
      cases fm1 with
      | none => exact ⟨_, rfl⟩
      | some mm => exact ⟨_, rfl⟩
  obtain ⟨msg, hmsg⟩ := husage
  refine ⟨⟨msg, hmsg⟩, by rw [hmsg]; simp [mainExitCode], by rw [hmsg]; rfl, rfl, ?_⟩
  simp [pyMain, retrieve_package, mainWorkerCount]

theorem c7_cli_exit_witness :
    (∃ msg, pyMain ⟨16, none, none, some "f.txt", none⟩ 0 "/cwd" ["u f"]
        (fun _ => 1) (fun _ => .ok ()) (fun _ => "t") = .usage msg) ∧
    mainExitCode (pyMain ⟨16, none, none, some "f.txt", none⟩ 0 "/cwd" ["u f"]
        (fun _ => 1) (fun _ => .ok ()) (fun _ => "t")) ≠ 0 ∧
    mainPerformedWork (pyMain ⟨16, none, none, some "f.txt", none⟩ 0 "/cwd" ["u f"]
        (fun _ => 1) (fun _ => .ok ()) (fun _ => "t")) = false ∧
    mainExitCode (pyMain ⟨2, some "pkg", some "m.txt", some "f.txt", some "/dest"⟩
        0 "/cwd" ["u f"] (fun _ => 1) (fun _ => .ok ()) (fun _ => "t")) = 0 ∧
    mainWorkerCount (pyMain ⟨2, some "pkg", some "m.txt", some "f.txt", some "/dest"⟩
        0 "/cwd" ["u f"] (fun _ => 1) (fun _ => .ok ()) (fun _ => "t")) =
      (⟨2, some "pkg", some "m.txt", some "f.txt", some "/dest"⟩ : Options).num_processes :=
  c7_cli_exit ⟨16, none, none, some "f.txt", none⟩
    ⟨2, some "pkg", some "m.txt", some "f.txt", some "/dest"⟩ "m.txt" "f.txt"
    0 "/cwd" ["u f"] (fun _ => 1) (fun _ => 1) (fun _ => .ok ()) (fun _ => "t")
    (Or.inl rfl) rfl rfl (by decide)

/-- C9 counterexample: with two workers, worker 0 and worker 1 write
through the same log handle — the single `logfile` opened by the parent
at line 49 before forking — so no worker owns its log handle
exclusively. -/
theorem c9_counterexample :
    ¬ (∀ i j : Nat, i < 2 → j < 2 → i ≠ j →
        workerLogHandle (retrieve_package ⟨2, "pkg", "m.txt", "f.txt", "/dest"⟩
          ["u1 f1", "u2 f2"] (fun _ => 0) (fun _ => .ok ()) (fun _ => "t")) i ≠
        workerLogHandle (retrieve_package ⟨2, "pkg", "m.txt", "f.txt", "/dest"⟩
          ["u1 f1", "u2 f2"] (fun _ => 0) (fun _ => .ok ()) (fun _ => "t")) j) :=
  fun h => h 0 1 (by decide) (by decide) (by decide) rfl

/-- C9 (amended): all workers share one log handle: the parent opens
`<package directory>/retrieval.log` once, before forking, and every
worker's log writes go through that same inherited handle, so writes of
different workers target the same file and may interleave; no worker
closes the handle explicitly (it is released only when the child process
exits). -/
theorem c9_amended (o : ResolvedOptions) (orderLines : List String)
    (run : TransferCmd → Int) (mkdirs : String → Except OSErr Unit)
    (ts : Nat → String) (i j : Nat) :
    workerLogHandle (retrieve_package o orderLines run mkdirs ts) i =
      workerLogHandle (retrieve_package o orderLines run mkdirs ts) j ∧
    workerLogHandle (retrieve_package o orderLines run mkdirs ts) i =
      pyJoin (pyJoin o.destination_path o.package_identifier) "retrieval.log" :=
  ⟨rfl, rfl⟩

/-- C10 counterexample: an absolute destination name that itself points
inside the package directory: the join leaves it unchanged, and the
resolved path is under the package directory, not outside it. -/
theorem c10_counterexample :
    pyStartsWith "/data/pkg/sub/f" "/" = true ∧
    pyJoin "/data/pkg" "/data/pkg/sub/f" = "/data/pkg/sub/f" ∧
    isUnder "/data/pkg" (pyJoin "/data/pkg" "/data/pkg/sub/f") = true :=
  ⟨rfl, rfl, rfl⟩

/-- C10 (amended): joining the package directory with an absolute
destination name yields the destination name unchanged, so the retrieved
file is written — and its log line recorded — at exactly the path the
destination name denotes, which lies outside the package directory
precisely when that name itself does. -/
theorem c10_amended (pkg dest url : String) (run : TransferCmd → Int)
    (mkdirs : String → Except OSErr Unit) (ts : String)
    (habs : pyStartsWith dest "/" = true) :
    pyJoin pkg dest = dest ∧
    (isUnder pkg dest = false → isUnder pkg (pyJoin pkg dest) = false) ∧
    processItem pkg run mkdirs ts [url, dest] =
      .ok { cmd := selectTransfer url dest,
            ret := run (selectTransfer url dest),
            logLine := mkLogLine ts dest (run (selectTransfer url dest)) } := by
  have hj : pyJoin pkg dest = dest := by rw [pyJoin, if_pos habs]
  refine ⟨hj, fun h => by rwa [hj], ?_⟩
  rw [show processItem pkg run mkdirs ts [url, dest] =
      processFetch pkg run mkdirs ts url dest from rfl, processFetch_eq, hj]

theorem c10_amended_witness :
    pyJoin "/data/pkg" "/etc/x" = "/etc/x" ∧
    (isUnder "/data/pkg" "/etc/x" = false →
      isUnder "/data/pkg" (pyJoin "/data/pkg" "/etc/x") = false) ∧
    processItem "/data/pkg" (fun _ => 0) (fun _ => .ok ()) "t" ["http://h", "/etc/x"] =
      .ok { cmd := selectTransfer "http://h" "/etc/x",
            ret := (fun _ => (0 : Int)) (selectTransfer "http://h" "/etc/x"),
            logLine := mkLogLine "t" "/etc/x"
              ((fun _ => (0 : Int)) (selectTransfer "http://h" "/etc/x")) } :=
  c10_amended "/data/pkg" "/etc/x" "http://h" (fun _ => 0) (fun _ => .ok ()) "t" rfl

theorem fromDigits_decDigitsAux :
    ∀ (fuel n : Nat), n ≤ fuel → fromDigits (decDigitsAux fuel n) = n := by
  intro fuel
  induction fuel with
  | zero =>
    intro n h
    have : n = 0 := by omega
    subst this
    rfl
  | succ fuel ih =>
    intro n h
    cases n with
    | zero => rfl
    | succ m =>
      rw [decDigitsAux, fromDigits, ih ((m + 1) / 10) (by omega)]
      omega

theorem decDigitsAux_lt_ten :
    ∀ (fuel n d : Nat), d ∈ decDigitsAux fuel n → d < 10 := by
  intro fuel
  induction fuel with
  | zero => intro n d h; simp [decDigitsAux] at h
  | succ fuel ih =>
    intro n d h
    cases n with
    | zero => simp [decDigitsAux] at h
    | succ m =>
      rw [decDigitsAux] at h
      rcases List.mem_cons.mp h with h | h
      · subst h; omega
      · exact ih _ d h

theorem charDigit_digitChar : ∀ d : Nat, d < 10 → charDigit (digitChar d) = d := by
  decide

theorem digitChar_toNat_bounds :
    ∀ d : Nat, d < 10 → 48 ≤ (digitChar d).toNat ∧ (digitChar d).toNat ≤ 57 := by
  decide

theorem decodeDec_pyIntStr (n : Nat) : decodeDec (pyIntStr n) = n := by
  by_cases h : n = 0
  · subst h; rfl
  · rw [pyIntStr, if_neg h, decodeDec]
    have hdata : (String.mk ((decDigits n).map digitChar)).data =
        (decDigits n).map digitChar := rfl
    rw [hdata, List.map_map]
    have hmap : (decDigits n).map (charDigit ∘ digitChar) = (decDigits n).map id := by
      apply List.map_congr_left
      intro d hd
      have hd10 : d < 10 := by
        have : d ∈ decDigitsAux n n := List.mem_reverse.mp hd
        exact decDigitsAux_lt_ten n n d this
      simp [charDigit_digitChar d hd10]
    rw [hmap, List.map_id, decDigits, List.reverse_reverse]
    exact fromDigits_decDigitsAux n n (Nat.le_refl n)

theorem pyIntStr_injective (a b : Nat) (h : pyIntStr a = pyIntStr b) : a = b := by
  have := congrArg decodeDec h
  rwa [decodeDec_pyIntStr, decodeDec_pyIntStr] at this

theorem isDecimalString_pyIntStr (n : Nat) : isDecimalString (pyIntStr n) = true := by
  by_cases h : n = 0
  · subst h; rfl
  · rw [pyIntStr, if_neg h, isDecimalString]
    have hne : decDigitsAux n n ≠ [] := by
      cases n with
      | zero => exact absurd rfl h
      | succ m => rw [decDigitsAux]; simp
    have hdata : (String.mk ((decDigits n).map digitChar)).data =
        (decDigits n).map digitChar := rfl
    rw [hdata]
    have h1 : ((decDigits n).map digitChar).isEmpty = false := by
      rw [decDigits]
      cases hc : (decDigitsAux n n).reverse with
      | nil => exact absurd (by simpa using hc) hne
      | cons a l => simp
    rw [h1]
    simp only [Bool.not_false, Bool.true_and, List.all_eq_true]
    intro c hc
    obtain ⟨d, hd, hcd⟩ := List.mem_map.mp hc
    have hd10 : d < 10 :=
      decDigitsAux_lt_ten n n d (List.mem_reverse.mp hd)
    obtain ⟨hlo, hhi⟩ := digitChar_toNat_bounds d hd10
    subst hcd
    simp only [Bool.and_eq_true, decide_eq_true_eq]
    omega

/-- C8: with no identifier supplied, the generated identifier is the
current time truncated to whole seconds since the epoch, rendered as a
pure decimal string, and two runs started more than one second apart get
different identifiers. -/
theorem c8_identifier (t1 t2 : ℚ) (h0 : 0 ≤ t1) (hlt : t1 + 1 < t2) :
    generate_package_identifier t1 = pyIntStr (Int.toNat ⌊t1⌋) ∧
    isDecimalString (generate_package_identifier t1) = true ∧
    isDecimalString (generate_package_identifier t2) = true ∧
    generate_package_identifier t1 ≠ generate_package_identifier t2 := by
  refine ⟨rfl, isDecimalString_pyIntStr _, isDecimalString_pyIntStr _, ?_⟩
  intro heq
  have hfl : ⌊t1⌋ + 1 ≤ ⌊t2⌋ := by
    have h1 : (⌊t1⌋ + 1 : ℤ) = ⌊t1 + 1⌋ := (Int.floor_add_one t1).symm
    rw [h1]
    exact Int.floor_le_floor (le_of_lt hlt)
  have h0i : (0 : ℤ) ≤ ⌊t1⌋ := Int.le_floor.mpr (by exact_mod_cast h0)
  have htn : Int.toNat ⌊t1⌋ = Int.toNat ⌊t2⌋ :=
    pyIntStr_injective _ _ heq
  omega

theorem c8_identifier_witness :
    generate_package_identifier 0 = pyIntStr (Int.toNat ⌊(0 : ℚ)⌋) ∧
    isDecimalString (generate_package_identifier 0) = true ∧
    isDecimalString (generate_package_identifier (5 / 2 : ℚ)) = true ∧
    generate_package_identifier 0 ≠ generate_package_identifier (5 / 2 : ℚ) :=
  c8_identifier 0 (5 / 2 : ℚ) (by norm_num) (by norm_num)
